import Mathlib

/-!
Shallow embedding of `run_benchmarks.py` (benchmark orchestration script).

The script shells out to gradle once per logging backend, copies and parses the
per-backend JMH JSON result file, tags each entry with its backend, merges the
entries, and renders a grouped markdown report sorted by score.

External effects (the gradle subprocess, the filesystem) are modelled by an
environment `Env` mapping each backend name to the outcome of its run, and the
results directory is modelled as the list of file names it contains.  Python
exceptions are modelled with `Except PyErr`; JSON numbers are modelled as
rationals (the script never does float arithmetic, it only compares and
formats scores).
-/

namespace Sawmill

/-- JSON values as produced by `json.load`.  Numbers are modelled as `Rat`. -/
inductive JVal where
  | null : JVal
  | bool (b : Bool) : JVal
  | str (s : String) : JVal
  | num (q : Rat) : JVal
  | arr (xs : List JVal) : JVal
  | obj (fields : List (String × JVal)) : JVal

mutual

/-- Structural equality of JSON values (Python `==` on parsed JSON). -/
def JVal.beq : JVal → JVal → Bool
  | .null, .null => true
  | .bool a, .bool b => a == b
  | .str a, .str b => a == b
  | .num a, .num b => a == b
  | .arr xs, .arr ys => beqList xs ys
  | .obj fs, .obj gs => beqFields fs gs
  | _, _ => false

/-- Equality of JSON arrays, elementwise. -/
def beqList : List JVal → List JVal → Bool
  | [], [] => true
  | x :: xs, y :: ys => JVal.beq x y && beqList xs ys
  | _, _ => false

/-- Equality of JSON objects, as key/value lists in insertion order. -/
def beqFields : List (String × JVal) → List (String × JVal) → Bool
  | [], [] => true
  | (k1, v1) :: xs, (k2, v2) :: ys => k1 == k2 && JVal.beq v1 v2 && beqFields xs ys
  | _, _ => false

end

mutual

def JVal.beq_iff : ∀ a b : JVal, JVal.beq a b = true ↔ a = b
  | .null, .null => by simp [JVal.beq]
  | .bool a, .bool b => by simp [JVal.beq]
  | .str a, .str b => by simp [JVal.beq]
  | .num a, .num b => by simp [JVal.beq]
  | .arr xs, .arr ys => by simp [JVal.beq, beqList_iff xs ys]
  | .obj fs, .obj gs => by simp [JVal.beq, beqFields_iff fs gs]
  | .null, .bool _ | .null, .str _ | .null, .num _ | .null, .arr _ | .null, .obj _
  | .bool _, .null | .bool _, .str _ | .bool _, .num _ | .bool _, .arr _ | .bool _, .obj _
  | .str _, .null | .str _, .bool _ | .str _, .num _ | .str _, .arr _ | .str _, .obj _
  | .num _, .null | .num _, .bool _ | .num _, .str _ | .num _, .arr _ | .num _, .obj _
  | .arr _, .null | .arr _, .bool _ | .arr _, .str _ | .arr _, .num _ | .arr _, .obj _
  | .obj _, .null | .obj _, .bool _ | .obj _, .str _ | .obj _, .num _ | .obj _, .arr _ => by
      simp [JVal.beq]

def beqList_iff : ∀ xs ys : List JVal, beqList xs ys = true ↔ xs = ys
  | [], [] => by simp [beqList]
  | [], _ :: _ => by simp [beqList]
  | _ :: _, [] => by simp [beqList]
  | x :: xs, y :: ys => by
      simp [beqList, JVal.beq_iff x y, beqList_iff xs ys]

def beqFields_iff : ∀ xs ys : List (String × JVal), beqFields xs ys = true ↔ xs = ys
  | [], [] => by simp [beqFields]
  | [], _ :: _ => by simp [beqFields]
  | _ :: _, [] => by simp [beqFields]
  | (k1, v1) :: xs, (k2, v2) :: ys => by
      simp [beqFields, JVal.beq_iff v1 v2, beqFields_iff xs ys, and_assoc,
        Prod.ext_iff]

end

instance : DecidableEq JVal := fun a b => decidable_of_iff _ (JVal.beq_iff a b)

/-- The Python exceptions the script can raise. -/
inductive PyErr where
  | keyError : PyErr
  | typeError : PyErr
  | attributeError : PyErr
  | jsonDecodeError : PyErr
deriving DecidableEq

/-- First-match association-list lookup: Python `d[k]` / `d.get(k)` on a dict
whose insertion order is the list order. -/
def assocLookup (k : String) : List (String × JVal) → Option JVal
  | [] => none
  | (k2, v) :: rest => if k2 = k then some v else assocLookup k rest

/-- Python `str()` of a value, as interpolated by the f-strings of the script.
The values it actually interpolates (backend names, categories, formats) are
strings; the rendering of containers and numbers is abbreviated here. -/
def pyStr : JVal → String
  | .null => "None"
  | .bool b => if b then "True" else "False"
  | .str s => s
  | .num q => toString q
  | .arr _ => "<list>"
  | .obj _ => "<dict>"

/-- Python `f"{x:.2f}"` on a score: two decimal digits.  The hundredths value
`⌊100q + 1/2⌋` is computed as `⌊(200 num + den) / (2 den)⌋` on the reduced
fraction.  (CPython rounds the underlying float half-to-even; this exact
model rounds ties upward, which agrees on every value appearing here.) -/
def fmt2 (q : Rat) : String :=
  let n : Int := Int.fdiv (200 * q.num + (q.den : Int)) (2 * (q.den : Int))
  let sign := if n < 0 then "-" else ""
  let m := n.natAbs
  let r := m % 100
  sign ++ toString (m / 100) ++ "." ++ (if r < 10 then "0" ++ toString r else toString r)

/-- Split a character list on a separator character, Python `str.split(sep)`
semantics: the empty list yields one empty field, and separators at either
end yield empty fields. -/
def splitOnChar (c : Char) : List Char → List (List Char)
  | [] => [[]]
  | x :: rest =>
      let r := splitOnChar c rest
      if x = c then [] :: r
      else (x :: r.headD []) :: r.tail

/-- Python `s.split('.')[-1]`. -/
def lastDot (s : String) : String := String.mk ((splitOnChar '.' s.data).getLastD [])

/-- A rational from an integer, with the reduced representation spelled out
so that it evaluates by kernel reduction. -/
def ratInt (n : Int) : Rat := ⟨n, 1, Nat.one_ne_zero, Nat.coprime_one_right _⟩

/-- Lexicographic strict comparison of character lists by code point, the
order Python uses on strings. -/
def listLtB : List Char → List Char → Bool
  | [], [] => false
  | [], _ :: _ => true
  | _ :: _, [] => false
  | c :: cs, d :: ds => if c < d then true else if d < c then false else listLtB cs ds

/-- Python `a < b` on strings. -/
def strLtB (a b : String) : Bool := listLtB a.data b.data

/-- A numeric value usable as a sort key and `:.2f` argument.  Python `bool`
is numeric; every other non-number raises `TypeError` where the script
compares or formats it.  (Python would sort all-string scores without
raising; this script's scores are JMH numbers, and the model treats
non-numeric scores as the error case.) -/
def asNum : JVal → Except PyErr Rat
  | .num q => .ok q
  | .bool b => .ok (if b then 1 else 0)
  | _ => .error .typeError

/-- The `backends` dict, lines 6–11: backend name ↦ benchmark class, in
insertion order. -/
def backends : List (String × String) :=
  [("lumberjack", "LumberjackBenchmark"), ("log4j", "Log4jBenchmark"),
   ("logback", "LogbackBenchmark"), ("jul", "JulBenchmark")]

def backendNames : List String := backends.map Prod.fst

/-- Outcome of one backend's external run: the subprocess result, whether the
JMH result file exists afterwards, and the parse of that file (`none` models
`json.load` raising a decode error). -/
structure BackendEnv where
  returncode : Int
  stdout : String
  stderr : String
  fileExists : Bool
  parse : Option JVal

/-- The external world: one run outcome per backend name. -/
def Env : Type := String → BackendEnv

/-- The command string built at line 31. -/
def gradleCommand (backend benchmarkClass : String) : String :=
  "./gradlew :lumberjack:benchmark:jmh -Pbackend=" ++ backend ++
    " -Pjmh.includes=" ++ "\x27" ++ benchmarkClass ++ "\x27"

/-- Console lines printed by `run_command` (lines 13–20); it returns
`returncode == 0`. -/
def runCommandLog (command : String) (rc : Int) (out errOut : String) : List String :=
  ["Running: " ++ command] ++
    (if rc ≠ 0 then
      ["Command failed with return code " ++ toString rc,
       "STDOUT: " ++ out, "STDERR: " ++ errOut]
    else [])

/-- Python dict assignment `d[k] = v`: replace the value at `k` in place, or
append the binding if `k` is absent. -/
def setKey : List (String × JVal) → String → JVal → List (String × JVal)
  | [], k, v => [(k, v)]
  | (k2, v2) :: rest, k, v =>
      if k2 = k then (k, v) :: rest else (k2, v2) :: setKey rest k v

/-- `entry['backend'] = backend` (line 40): raises `TypeError` unless the
entry is a dict. -/
def tagEntry (backend : String) : JVal → Except PyErr JVal
  | .obj fs => .ok (.obj (setKey fs "backend" (.str backend)))
  | _ => .error .typeError

/-- The tagging loop over one parsed result file followed by
`all_results.extend(data)` (lines 39–41): requires a JSON array; iterating a
non-array either raises at once or raises on the first element's assignment,
and contributes no entries either way. -/
def tagData (backend : String) : JVal → Except PyErr (List JVal)
  | .arr xs => xs.mapM (tagEntry backend)
  | _ => .error .typeError

def resultFileName (b : String) : String := "results_" ++ b ++ ".json"

def srcJsonPath : String := "lumberjack/benchmark/build/results/jmh/results.json"

/-- What one iteration of the `collect_results` loop (lines 29–45) does for
backend `b` with benchmark class `cls`: console lines, file names copied into
the results directory, and either the tagged entries contributed to
`all_results` or the exception that escapes. -/
structure StepOut where
  log : List String
  copied : List String
  res : Except PyErr (List JVal)

def stepBackend (env : Env) (b cls : String) : StepOut :=
  let e := env b
  let testing := "Testing backend: " ++ b
  let rlog := runCommandLog (gradleCommand b cls) e.returncode e.stdout e.stderr
  if e.returncode = 0 then
    if e.fileExists then
      match e.parse with
      | none =>
          { log := [testing] ++ rlog, copied := [resultFileName b],
            res := .error .jsonDecodeError }
      | some v =>
          { log := [testing] ++ rlog, copied := [resultFileName b],
            res := tagData b v }
    else
      { log := [testing] ++ rlog ++
          ["Warning: Result file " ++ srcJsonPath ++ " not found for " ++ b],
        copied := [], res := .ok [] }
  else
    { log := [testing] ++ rlog ++ ["Error: Benchmark failed for " ++ b],
      copied := [], res := .ok [] }

/-- Everything `collect_results` produces: console lines, the contents of the
results directory, the merged `all_results`, and the exception that escaped,
if any (in which case `results` is lost to the caller). -/
structure CollectOut where
  log : List String
  dirFiles : List String
  results : List JVal
  err : Option PyErr

/-- The backend loop of `collect_results`; an exception aborts the loop but
files copied before it remain in the results directory. -/
def collectAux (env : Env) : List (String × String) → CollectOut
  | [] => { log := [], dirFiles := [], results := [], err := none }
  | (b, cls) :: rest =>
      let s := stepBackend env b cls
      match s.res with
      | .error e => { log := s.log, dirFiles := s.copied, results := [], err := some e }
      | .ok es =>
          let o := collectAux env rest
          { log := s.log ++ o.log, dirFiles := s.copied ++ o.dirFiles,
            results := es ++ o.results, err := o.err }

/-- Lines 25–27: remove the results directory if it exists, then create it
fresh; either way it is empty afterwards. -/
def recreateDir : Option (List String) → List String
  | some _ => []
  | none => []

/-- `collect_results` (lines 22–47), given the initial contents of the
`benchmark_results_json` directory (`none` if it does not exist) and the
external environment. -/
def collect_results (initDir : Option (List String)) (env : Env) : CollectOut :=
  let dir0 := recreateDir initDir
  let o := collectAux env backends
  { o with dirFiles := dir0 ++ o.dirFiles }

/-- Synthetic entry for backend "a" with score 100.0, as in spec section 8. -/
def entryA : JVal :=
  .obj [("benchmark", .str "com.example.TestA"),
        ("primaryMetric", .obj [("score", .num (ratInt 100)), ("scoreError", .num (ratInt 1))]),
        ("params", .obj [("category", .str "CONSOLE"), ("format", .str "plain")]),
        ("backend", .str "a")]

/-- Synthetic entry for backend "b" with score 50.0, same category/format. -/
def entryB : JVal :=
  .obj [("benchmark", .str "com.example.TestB"),
        ("primaryMetric", .obj [("score", .num (ratInt 50)), ("scoreError", .num (ratInt 1))]),
        ("params", .obj [("category", .str "CONSOLE"), ("format", .str "plain")]),
        ("backend", .str "b")]

/-- Synthetic entry for backend "c" with a different (category, format). -/
def entryC : JVal :=
  .obj [("benchmark", .str "com.example.TestC"),
        ("primaryMetric", .obj [("score", .num (ratInt 75)), ("scoreError", .num (ratInt 2))]),
        ("params", .obj [("category", .str "FILE"), ("format", .str "json")]),
        ("backend", .str "c")]

/-- Raw (untagged) well-formed entries for a sample result file. -/
def goodRawEntries : List JVal :=
  [.obj [("benchmark", .str "com.example.Test"),
         ("primaryMetric", .obj [("score", .num (ratInt 10)), ("scoreError", .num (ratInt 1))])]]

/-- A sample environment: the lumberjack run succeeds and its file parses to
`goodRawEntries`; every other backend's command exits with code 1. -/
def envGood : Env := fun b =>
  if b = "lumberjack" then
    { returncode := 0, stdout := "", stderr := "", fileExists := true,
      parse := some (.arr goodRawEntries) }
  else
    { returncode := 1, stdout := "build out", stderr := "build err",
      fileExists := false, parse := none }

/-- An environment whose lumberjack result file holds one entry that lacks
`primaryMetric`; every other backend fails. -/
def envMissingMetric : Env := fun b =>
  if b = "lumberjack" then
    { returncode := 0, stdout := "", stderr := "", fileExists := true,
      parse := some (.arr [.obj [("benchmark", .str "com.example.Test")]]) }
  else
    { returncode := 1, stdout := "", stderr := "", fileExists := false,
      parse := none }

/-- An environment whose lumberjack run succeeds but leaves no result file;
every other backend fails. -/
def envNoFile : Env := fun b =>
  if b = "lumberjack" then
    { returncode := 0, stdout := "", stderr := "", fileExists := false,
      parse := none }
  else
    { returncode := 1, stdout := "", stderr := "", fileExists := false,
      parse := none }

/-- A grouping key: the pair `(category, format)` of parameter values. -/
abbrev Key : Type := JVal × JVal

/-- Lines 57–60: the `(category, format)` key of an entry.  `entry.get`
raises `AttributeError` on a non-dict, and so does `params.get` when the
`params` value is not a dict; a missing `params` defaults to `{}` and missing
keys default to the string `'N/A'`. -/
def groupKey : JVal → Except PyErr Key
  | .obj fs =>
      match (assocLookup "params" fs).getD (.obj []) with
      | .obj ps =>
          .ok ((assocLookup "category" ps).getD (.str "N/A"),
               (assocLookup "format" ps).getD (.str "N/A"))
      | _ => .error .attributeError
  | _ => .error .attributeError

/-- Append entry `e` to the group of key `k`, creating the group at the end if
the key is new: Python dict insertion-order semantics for `grouped`. -/
def addToGroup (k : Key) (e : JVal) : List (Key × List JVal) → List (Key × List JVal)
  | [] => [(k, [e])]
  | (k2, es) :: rest =>
      if k2 = k then (k2, es ++ [e]) :: rest else (k2, es) :: addToGroup k e rest

/-- The grouping loop, lines 55–63. -/
def groupResultsAux (acc : List (Key × List JVal)) :
    List JVal → Except PyErr (List (Key × List JVal))
  | [] => .ok acc
  | e :: rest =>
      match groupKey e with
      | .error ex => .error ex
      | .ok k => groupResultsAux (addToGroup k e acc) rest

def groupResults (results : List JVal) : Except PyErr (List (Key × List JVal)) :=
  groupResultsAux [] results

/-- `listLtB` decides the `List Char` strict order. -/
def listLtB_iff : ∀ a b : List Char, listLtB a b = true ↔ a < b
  | [], [] => by
      constructor
      · intro h; exact absurd h (by simp [listLtB])
      · intro h; cases h
  | [], d :: ds => by
      simp only [listLtB, true_iff]
      exact List.Lex.nil
  | c :: cs, [] => by
      constructor
      · intro h; exact absurd h (by simp [listLtB])
      · intro h; cases h
  | c :: cs, d :: ds => by
      by_cases hcd : c < d
      · simp only [listLtB, if_pos hcd, true_iff]
        exact List.Lex.rel hcd
      · by_cases hdc : d < c
        · simp only [listLtB, if_neg hcd, if_pos hdc, Bool.false_eq_true, false_iff]
          intro h
          cases h with
          | cons h2 => exact absurd hdc (lt_irrefl _)
          | rel h2 => exact hcd h2
        · have hce : c = d := le_antisymm (not_lt.mp hdc) (not_lt.mp hcd)
          subst hce
          simp only [listLtB, if_neg hcd, if_neg hdc, listLtB_iff cs ds]
          constructor
          · exact fun h => List.Lex.cons h
          · intro h
            cases h with
            | cons h2 => exact h2
            | rel h2 => exact absurd h2 hcd

/-- `strLtB` decides Python string `<`. -/
def strLtB_iff (a b : String) : strLtB a b = true ↔ a < b := by
  rw [String.lt_iff_toList_lt]
  exact listLtB_iff a.data b.data

/-- Python `<=` on tuples of strings: lexicographic. -/
def pairLe (a b : String × String) : Prop :=
  a.1 < b.1 ∨ (a.1 = b.1 ∧ a.2 ≤ b.2)

instance : DecidableRel pairLe := fun a b =>
  decidable_of_iff (strLtB a.1 b.1 = true ∨ (a.1 = b.1 ∧ strLtB b.2 a.2 = false))
    (by
      unfold pairLe
      apply or_congr (strLtB_iff a.1 b.1)
      apply and_congr_right
      intro _
      rw [Bool.eq_false_iff, Ne, strLtB_iff, not_lt])

def wrapKey (p : String × String) : Key := (.str p.1, .str p.2)

/-- View a grouping key as a pair of strings, if it is one. -/
def keyStrs : Key → Option (String × String)
  | (.str a, .str b) => some (a, b)
  | _ => none

/-- `sorted(grouped.keys())`, line 69.  With at most one key no comparison
happens; otherwise string-tuple keys sort lexicographically, and keys that
are not pairs of strings are modelled as raising `TypeError` when compared
(CPython would also sort homogeneous non-string keys, a case the claims never
touch). -/
def sortKeys (ks : List Key) : Except PyErr (List Key) :=
  if ks.length ≤ 1 then .ok ks
  else
    match ks.mapM keyStrs with
    | some sks => .ok ((List.insertionSort pairLe sks).map wrapKey)
    | none => .error .typeError

/-- The sort key of line 79: `entry['primaryMetric']['score']`, read as a
number. -/
def getScoreExc : JVal → Except PyErr Rat
  | .obj fs =>
      match assocLookup "primaryMetric" fs with
      | none => .error .keyError
      | some (.obj pfs) =>
          match assocLookup "score" pfs with
          | none => .error .keyError
          | some v => asNum v
      | some _ => .error .typeError
  | _ => .error .typeError

/-- Score-descending precedence used to sort a group (stable, like Python
`list.sort(key=..., reverse=True)`): `p` may precede `q` iff `q`'s score is
at most `p`'s. -/
def scoreDescLe (p q : Rat × JVal) : Prop := q.1 ≤ p.1

instance : DecidableRel scoreDescLe := fun p q => by unfold scoreDescLe; infer_instance

/-- Line 79: sort a group by `primaryMetric.score`, descending. -/
def sortGroup (entries : List JVal) : Except PyErr (List JVal) := do
  let pairs ← entries.mapM (fun e => do
    let s ← getScoreExc e
    pure (s, e))
  pure ((List.insertionSort scoreDescLe pairs).map Prod.snd)

/-- Lines 82–86: read one entry's fields and format its table row. -/
def renderRow : JVal → Except PyErr String
  | .obj fs => do
      let b ← match assocLookup "backend" fs with
        | some v => Except.ok v
        | none => Except.error PyErr.keyError
      let bench ← match assocLookup "benchmark" fs with
        | some v => Except.ok v
        | none => Except.error PyErr.keyError
      let benchStr ← match bench with
        | .str s => Except.ok s
        | _ => Except.error PyErr.attributeError
      let pm ← match assocLookup "primaryMetric" fs with
        | some v => Except.ok v
        | none => Except.error PyErr.keyError
      let score ← match pm with
        | .obj pfs =>
            match assocLookup "score" pfs with
            | some v => asNum v
            | none => Except.error PyErr.keyError
        | _ => Except.error PyErr.typeError
      let scoreErr ← match pm with
        | .obj pfs =>
            match assocLookup "scoreError" pfs with
            | some v => asNum v
            | none => Except.error PyErr.keyError
        | _ => Except.error PyErr.typeError
      Except.ok ("| " ++ pyStr b ++ " | " ++ lastDot benchStr ++ " | " ++
        fmt2 score ++ " | " ++ fmt2 scoreErr ++ " |\n")
  | _ => .error .typeError

/-- The row loop of lines 81–86: rows are written one at a time, so on an
exception the rows already written stay in the file. -/
def renderRowsAux : List JVal → List String × Option PyErr
  | [] => ([], none)
  | e :: rest =>
      match renderRow e with
      | .error ex => ([], some ex)
      | .ok row =>
          let (rows, ex) := renderRowsAux rest
          (row :: rows, ex)

/-- The three writes of lines 73–75 that introduce a section. -/
def sectionHeader (k : Key) : List String :=
  ["## Category: " ++ pyStr k.1 ++ ", Format: " ++ pyStr k.2 ++ "\n\n",
   "| Backend | Benchmark | Score (ops/s) | Error |\n",
   "|---------|-----------|---------------|-------|\n"]

/-- `grouped[key]` (the key is always present when taken from
`sorted_keys`). -/
def groupEntries (k : Key) : List (Key × List JVal) → List JVal
  | [] => []
  | (k2, es) :: rest => if k2 = k then es else groupEntries k rest

/-- The report loop, lines 71–87: the chunks written to the file and the
exception that escapes mid-loop, if any. -/
def renderSections (grouped : List (Key × List JVal)) : List Key → List String × Option PyErr
  | [] => ([], none)
  | k :: rest =>
      let head := sectionHeader k
      match sortGroup (groupEntries k grouped) with
      | .error ex => (head, some ex)
      | .ok sorted =>
          match renderRowsAux sorted with
          | (rows, some ex) => (head ++ rows, some ex)
          | (rows, none) =>
              let (restChunks, ex) := renderSections grouped rest
              (head ++ rows ++ ["\n"] ++ restChunks, ex)

/-- Everything `generate_markdown` produces: console lines, the chunks
written to `BENCHMARK_RESULTS.md` (`none` when the file was never opened),
and the exception that escaped, if any. -/
structure GenOut where
  log : List String
  file : Option (List String)
  err : Option PyErr

def reportTitle : String := "# Logging Benchmark Results\n\n"

/-- `generate_markdown` (lines 49–89).  Grouping happens before the file is
opened; the title is written before the keys are sorted. -/
def generate_markdown (results : List JVal) : GenOut :=
  if results = [] then
    { log := ["No results to process."], file := none, err := none }
  else
    match groupResults results with
    | .error ex => { log := [], file := none, err := some ex }
    | .ok grouped =>
        match sortKeys (grouped.map Prod.fst) with
        | .error ex => { log := [], file := some [reportTitle], err := some ex }
        | .ok keys =>
            let (chunks, ex) := renderSections grouped keys
            { log := if ex = none
                then ["Markdown report generated: BENCHMARK_RESULTS.md"] else [],
              file := some (reportTitle :: chunks), err := ex }

/-- Everything the `__main__` block produces. -/
structure ScriptOut where
  log : List String
  dirFiles : List String
  file : Option (List String)
  err : Option PyErr

/-- Lines 91–93: collect, then (if no exception escaped) generate. -/
def runScript (initDir : Option (List String)) (env : Env) : ScriptOut :=
  let c := collect_results initDir env
  match c.err with
  | some e => { log := c.log, dirFiles := c.dirFiles, file := none, err := some e }
  | none =>
      let g := generate_markdown c.results
      { log := c.log ++ g.log, dirFiles := c.dirFiles, file := g.file, err := g.err }

/-- `params[k]` is either absent (so `.get` takes the `'N/A'` default) or a
string. -/
def strOrAbsent (ps : List (String × JVal)) (k : String) : Bool :=
  match assocLookup k ps with
  | none => true
  | some (.str _) => true
  | some _ => false

/-- The given optional value is a number (or a bool, numeric in Python). -/
def numOk : Option JVal → Bool
  | some (.num _) => true
  | some (.bool _) => true
  | _ => false

/-- Well-formedness of a merged result entry, sufficient for exception-free
report generation: a dict whose `params` (missing defaults to `{}`) is a dict
with string-or-absent `category` and `format`, carrying a `backend` key, a
string `benchmark`, and a `primaryMetric` dict with numeric `score` and
`scoreError`. -/
def entryOk : JVal → Bool
  | .obj fs =>
      (match (assocLookup "params" fs).getD (.obj []) with
       | .obj ps => strOrAbsent ps "category" && strOrAbsent ps "format"
       | _ => false) &&
      (assocLookup "backend" fs).isSome &&
      (match assocLookup "benchmark" fs with
       | some (.str _) => true
       | _ => false) &&
      (match assocLookup "primaryMetric" fs with
       | some (.obj pm) => numOk (assocLookup "score" pm) && numOk (assocLookup "scoreError" pm)
       | _ => false)
  | _ => false

/-- A pre-tagging entry of a parsed result file: like `entryOk` but with no
requirement on `backend`, which collection adds. -/
def rawEntryOk : JVal → Bool
  | .obj fs =>
      (match (assocLookup "params" fs).getD (.obj []) with
       | .obj ps => strOrAbsent ps "category" && strOrAbsent ps "format"
       | _ => false) &&
      (match assocLookup "benchmark" fs with
       | some (.str _) => true
       | _ => false) &&
      (match assocLookup "primaryMetric" fs with
       | some (.obj pm) => numOk (assocLookup "score" pm) && numOk (assocLookup "scoreError" pm)
       | _ => false)
  | _ => false

/-- A well-behaved environment: whenever a backend's command succeeds and its
result file exists, the file parses to a JSON array of well-formed entry
dicts. -/
def envOkB (env : Env) : Bool :=
  backends.all fun p =>
    if (env p.1).returncode = 0 && (env p.1).fileExists then
      match (env p.1).parse with
      | some (.arr xs) => xs.all rawEntryOk
      | _ => false
    else true

instance : IsTotal (String × String) pairLe where
  total a b := by
    rcases lt_trichotomy a.1 b.1 with h | h | h
    · exact Or.inl (Or.inl h)
    · rcases le_total a.2 b.2 with h2 | h2
      · exact Or.inl (Or.inr ⟨h, h2⟩)
      · exact Or.inr (Or.inr ⟨h.symm, h2⟩)
    · exact Or.inr (Or.inl h)

instance : IsTrans (String × String) pairLe where
  trans a b c hab hbc := by
    rcases hab with h1 | ⟨h1, h1b⟩
    · rcases hbc with h2 | ⟨h2, h2b⟩
      · exact Or.inl (lt_trans h1 h2)
      · exact Or.inl (h2 ▸ h1)
    · rcases hbc with h2 | ⟨h2, h2b⟩
      · exact Or.inl (h1 ▸ h2)
      · exact Or.inr ⟨h1.trans h2, le_trans h1b h2b⟩

instance : IsTotal (Rat × JVal) scoreDescLe where
  total a b := (le_total b.1 a.1).elim Or.inl Or.inr

instance : IsTrans (Rat × JVal) scoreDescLe where
  trans _ _ _ hab hbc := le_trans hbc hab

/-- The pure sorting step of `sortKeys`, on the string views of the keys. -/
def sortIfNeeded (s : List (String × String)) : List (String × String) :=
  if s.length ≤ 1 then s else List.insertionSort pairLe s

/-- `a`'s score is at least `b`'s (both defined): the row order within a
table. -/
def scoreGe (a b : JVal) : Prop :=
  ∃ sa sb, getScoreExc a = .ok sa ∧ getScoreExc b = .ok sb ∧ sb ≤ sa

/-- The rows a section writes when no exception interrupts it. -/
def sectionRows (grouped : List (Key × List JVal)) (k : Key) : List String :=
  match sortGroup (groupEntries k grouped) with
  | .error _ => []
  | .ok sorted => (renderRowsAux sorted).1

/-- All chunks a completed section writes: header, rows, trailing newline. -/
def sectionChunks (grouped : List (Key × List JVal)) (k : Key) : List String :=
  sectionHeader k ++ sectionRows grouped k ++ ["\n"]

theorem assocLookup_setKey_self (fs : List (String × JVal)) (k : String) (v : JVal) :
    assocLookup k (setKey fs k v) = some v := by
  induction fs with
  | nil => simp [setKey, assocLookup]
  | cons p rest ih =>
      obtain ⟨k2, v2⟩ := p
      by_cases h : k2 = k
      · simp [setKey, h, assocLookup]
      · simp [setKey, h, assocLookup, ih]

theorem assocLookup_setKey_ne (fs : List (String × JVal)) (k k2 : String) (v : JVal)
    (h : k2 ≠ k) : assocLookup k2 (setKey fs k v) = assocLookup k2 fs := by
  induction fs with
  | nil => simp [setKey, assocLookup, Ne.symm h]
  | cons p rest ih =>
      obtain ⟨k3, v3⟩ := p
      by_cases h3 : k3 = k
      · subst h3
        simp [setKey, assocLookup, Ne.symm h]
      · simp [setKey, h3, assocLookup, ih]

/-- Tagging a well-formed raw entry yields a well-formed entry: the `backend`
key is set and all other lookups are unchanged. -/
theorem entryOk_tagEntry (b : String) (x : JVal) (h : rawEntryOk x = true) :
    ∃ fs, x = .obj fs ∧
      tagEntry b x = .ok (.obj (setKey fs "backend" (.str b))) ∧
      entryOk (.obj (setKey fs "backend" (.str b))) = true := by
  cases x with
  | obj fs =>
      refine ⟨fs, rfl, rfl, ?_⟩
      have hp := assocLookup_setKey_ne fs "backend" "params" (.str b) (by decide)
      have hb := assocLookup_setKey_self fs "backend" (.str b)
      have hbm := assocLookup_setKey_ne fs "backend" "benchmark" (.str b) (by decide)
      have hpm := assocLookup_setKey_ne fs "backend" "primaryMetric" (.str b) (by decide)
      simp only [rawEntryOk] at h
      simp only [entryOk, hp, hb, hbm, hpm, Option.isSome_some, Bool.true_and, Bool.and_true]
      rcases Bool.and_eq_true_iff.mp h with ⟨h1, h2⟩
      rcases Bool.and_eq_true_iff.mp h1 with ⟨h3, h4⟩
      simp [h2, h3, h4]
  | null => simp [rawEntryOk] at h
  | bool b2 => simp [rawEntryOk] at h
  | str s => simp [rawEntryOk] at h
  | num q => simp [rawEntryOk] at h
  | arr xs => simp [rawEntryOk] at h

theorem addToGroup_join (k : Key) (e : JVal) (g : List (Key × List JVal)) :
    ((addToGroup k e g).flatMap Prod.snd).Perm (g.flatMap Prod.snd ++ [e]) := by
  induction g with
  | nil => simp [addToGroup]
  | cons p rest ih =>
      obtain ⟨k2, es⟩ := p
      by_cases h : k2 = k
      · simp only [addToGroup, if_pos h, List.flatMap_cons, List.append_assoc]
        exact List.Perm.append_left es List.perm_append_comm
      · simp only [addToGroup, if_neg h, List.flatMap_cons, List.append_assoc]
        exact List.Perm.append_left es ih

theorem addToGroup_keys_mem (k : Key) (e : JVal) (g : List (Key × List JVal)) (k2 : Key) :
    k2 ∈ (addToGroup k e g).map Prod.fst ↔ k2 ∈ g.map Prod.fst ∨ k2 = k := by
  induction g with
  | nil => simp [addToGroup]
  | cons p rest ih =>
      obtain ⟨k3, es⟩ := p
      by_cases h : k3 = k
      · subst h
        simp [addToGroup]
        tauto
      · simp [addToGroup, h, ih]
        tauto

theorem addToGroup_keys_nodup (k : Key) (e : JVal) (g : List (Key × List JVal))
    (h : (g.map Prod.fst).Nodup) : ((addToGroup k e g).map Prod.fst).Nodup := by
  induction g with
  | nil => simp [addToGroup]
  | cons p rest ih =>
      obtain ⟨k3, es⟩ := p
      by_cases hk : k3 = k
      · simpa [addToGroup, hk] using h
      · simp only [addToGroup, if_neg hk, List.map_cons, List.nodup_cons] at h ⊢
        refine ⟨?_, ih h.2⟩
        rw [addToGroup_keys_mem]
        rintro (h3 | h3)
        · exact h.1 h3
        · exact hk h3

theorem addToGroup_forall {P : Key → JVal → Prop} (k : Key) (e : JVal)
    (g : List (Key × List JVal)) (hg : ∀ p ∈ g, ∀ x ∈ p.2, P p.1 x) (he : P k e) :
    ∀ p ∈ addToGroup k e g, ∀ x ∈ p.2, P p.1 x := by
  induction g with
  | nil =>
      intro p hp x hx
      simp only [addToGroup, List.mem_singleton] at hp
      subst hp
      simp only [List.mem_singleton] at hx
      subst hx
      exact he
  | cons q rest ih =>
      obtain ⟨k3, es⟩ := q
      intro p hp x hx
      simp only [addToGroup] at hp
      by_cases hk : k3 = k
      · rw [if_pos hk] at hp
        rcases List.mem_cons.mp hp with rfl | hp2
        · rcases List.mem_append.mp hx with hx2 | hx2
          · exact hg (k3, es) (List.mem_cons_self _ _) x hx2
          · rw [List.mem_singleton] at hx2
            subst hx2
            rw [show (k3, es ++ [x]).1 = k from hk]
            exact he
        · exact hg p (List.mem_cons_of_mem _ hp2) x hx
      · rw [if_neg hk] at hp
        rcases List.mem_cons.mp hp with rfl | hp2
        · exact hg (k3, es) (List.mem_cons_self _ _) x hx
        · exact ih (fun q hq => hg q (List.mem_cons_of_mem _ hq)) p hp2 x hx

theorem groupResultsAux_ok (l : List JVal) :
    ∀ acc, (∀ x ∈ l, ∃ k, groupKey x = .ok k) →
      ∃ g, groupResultsAux acc l = .ok g := by
  induction l with
  | nil => intro acc _; exact ⟨acc, rfl⟩
  | cons e rest ih =>
      intro acc h
      obtain ⟨k, hk⟩ := h e (by simp)
      obtain ⟨g, hg⟩ := ih (addToGroup k e acc) (fun x hx => h x (by simp [hx]))
      exact ⟨g, by simpa [groupResultsAux, hk] using hg⟩

theorem groupResultsAux_join (l : List JVal) :
    ∀ acc g, groupResultsAux acc l = .ok g →
      (g.flatMap Prod.snd).Perm (acc.flatMap Prod.snd ++ l) := by
  induction l with
  | nil =>
      intro acc g h
      simp only [groupResultsAux, Except.ok.injEq] at h
      subst h
      simp
  | cons e rest ih =>
      intro acc g h
      cases hk : groupKey e with
      | error ex => simp [groupResultsAux, hk] at h
      | ok k =>
          simp only [groupResultsAux, hk] at h
          refine (ih (addToGroup k e acc) g h).trans ?_
          have h3 := (addToGroup_join k e acc).append_right rest
          simpa [List.append_assoc] using h3

theorem groupResultsAux_nodup (l : List JVal) :
    ∀ acc g, groupResultsAux acc l = .ok g → (acc.map Prod.fst).Nodup →
      (g.map Prod.fst).Nodup := by
  induction l with
  | nil =>
      intro acc g h hacc
      simp only [groupResultsAux, Except.ok.injEq] at h
      subst h
      exact hacc
  | cons e rest ih =>
      intro acc g h hacc
      cases hk : groupKey e with
      | error ex => simp [groupResultsAux, hk] at h
      | ok k =>
          simp only [groupResultsAux, hk] at h
          exact ih (addToGroup k e acc) g h (addToGroup_keys_nodup k e acc hacc)

theorem groupResultsAux_mem_keys (l : List JVal) :
    ∀ acc g, groupResultsAux acc l = .ok g → ∀ k2,
      (k2 ∈ g.map Prod.fst ↔ k2 ∈ acc.map Prod.fst ∨ ∃ e ∈ l, groupKey e = .ok k2) := by
  induction l with
  | nil =>
      intro acc g h k2
      simp only [groupResultsAux, Except.ok.injEq] at h
      subst h
      simp
  | cons e rest ih =>
      intro acc g h k2
      cases hk : groupKey e with
      | error ex => simp [groupResultsAux, hk] at h
      | ok k =>
          simp only [groupResultsAux, hk] at h
          rw [ih (addToGroup k e acc) g h k2, addToGroup_keys_mem]
          simp only [List.mem_cons]
          constructor
          · rintro ((h2 | h2) | ⟨e2, he2, hke2⟩)
            · exact Or.inl h2
            · exact Or.inr ⟨e, Or.inl rfl, by rw [hk, h2]⟩
            · exact Or.inr ⟨e2, Or.inr he2, hke2⟩
          · rintro (h2 | ⟨e2, he2 | he2, hke2⟩)
            · exact Or.inl (Or.inl h2)
            · subst he2
              rw [hk] at hke2
              exact Or.inl (Or.inr (Except.ok.inj hke2).symm)
            · exact Or.inr ⟨e2, he2, hke2⟩

theorem groupResultsAux_correct (l : List JVal) :
    ∀ acc g, groupResultsAux acc l = .ok g →
      (∀ p ∈ acc, ∀ x ∈ p.2, groupKey x = .ok p.1) →
      ∀ p ∈ g, ∀ x ∈ p.2, groupKey x = .ok p.1 := by
  induction l with
  | nil =>
      intro acc g h hacc
      simp only [groupResultsAux, Except.ok.injEq] at h
      subst h
      exact hacc
  | cons e rest ih =>
      intro acc g h hacc
      cases hk : groupKey e with
      | error ex => simp [groupResultsAux, hk] at h
      | ok k =>
          simp only [groupResultsAux, hk] at h
          exact ih (addToGroup k e acc) g h
            (addToGroup_forall (P := fun k2 x => groupKey x = Except.ok k2) k e acc hacc hk)

theorem groupEntries_eq (g : List (Key × List JVal)) (k : Key) (es : List JVal)
    (hnd : (g.map Prod.fst).Nodup) (h : (k, es) ∈ g) : groupEntries k g = es := by
  induction g with
  | nil => cases h
  | cons p rest ih =>
      obtain ⟨k2, es2⟩ := p
      simp only [List.map_cons, List.nodup_cons] at hnd
      rcases List.mem_cons.mp h with h1 | h1
      · injection h1 with hk hes
        simp only [groupEntries]
        rw [if_pos hk.symm]
        exact hes.symm
      · by_cases hk : k2 = k
        · subst hk
          exact absurd (List.mem_map.mpr ⟨(k2, es), h1, rfl⟩) hnd.1
        · simp only [groupEntries, if_neg hk]
          exact ih hnd.2 h1

theorem sortIfNeeded_perm (s : List (String × String)) : (sortIfNeeded s).Perm s := by
  by_cases h : s.length ≤ 1
  · rw [sortIfNeeded, if_pos h]
  · rw [sortIfNeeded, if_neg h]
    exact List.perm_insertionSort pairLe s

theorem sortIfNeeded_sorted (s : List (String × String)) :
    List.Sorted pairLe (sortIfNeeded s) := by
  by_cases h : s.length ≤ 1
  · rw [sortIfNeeded, if_pos h]
    rcases s with _ | ⟨a, _ | ⟨b, t⟩⟩
    · exact List.sorted_nil
    · exact List.sorted_singleton a
    · simp at h
  · rw [sortIfNeeded, if_neg h]
    exact List.sorted_insertionSort pairLe s

theorem keyStrs_some {k : Key} {p : String × String} (h : keyStrs k = some p) :
    k = wrapKey p := by
  obtain ⟨a, b⟩ := k
  cases a <;> cases b <;> simp only [keyStrs, Option.some.injEq] at h
  case str.str s t =>
    subst h
    rfl
  all_goals exact absurd h (by simp)

theorem wrapKey_injective : Function.Injective wrapKey := by
  intro a b h
  have h1 : JVal.str a.1 = JVal.str b.1 := congrArg Prod.fst h
  have h2 : JVal.str a.2 = JVal.str b.2 := congrArg Prod.snd h
  injection h1 with h1
  injection h2 with h2
  exact Prod.ext h1 h2

theorem mapM_keyStrs_eq : ∀ (ks : List Key) (sks : List (String × String)),
    ks.mapM keyStrs = some sks → ks = sks.map wrapKey := by
  intro ks
  induction ks with
  | nil =>
      intro sks h
      simp only [List.mapM_nil, pure, Option.some.injEq] at h
      rw [← h]
      rfl
  | cons k rest ih =>
      intro sks h
      rw [List.mapM_cons] at h
      cases hk : keyStrs k with
      | none => rw [hk] at h; simp at h
      | some p =>
          rw [hk] at h
          cases hrest : rest.mapM keyStrs with
          | none => rw [hrest] at h; simp at h
          | some ps =>
              rw [hrest] at h
              simp at h
              rw [← h, List.map_cons, ← ih ps hrest, ← keyStrs_some hk]

theorem mapM_keyStrs_of_forall : ∀ (ks : List Key),
    (∀ k ∈ ks, ∃ p, keyStrs k = some p) → ∃ sks, ks.mapM keyStrs = some sks := by
  intro ks
  induction ks with
  | nil => intro _; exact ⟨[], rfl⟩
  | cons k rest ih =>
      intro h
      obtain ⟨p, hp⟩ := h k (by simp)
      obtain ⟨ps, hps⟩ := ih (fun k2 hk2 => h k2 (by simp [hk2]))
      refine ⟨p :: ps, ?_⟩
      rw [List.mapM_cons, hp, hps]
      rfl

theorem sortKeys_eq {ks : List Key} {sks : List (String × String)}
    (h : ks.mapM keyStrs = some sks) :
    sortKeys ks = .ok ((sortIfNeeded sks).map wrapKey) := by
  have hks := mapM_keyStrs_eq ks sks h
  have hlen : ks.length = sks.length := by rw [hks, List.length_map]
  by_cases hl : ks.length ≤ 1
  · rw [sortKeys, if_pos hl, sortIfNeeded, if_pos (hlen ▸ hl), ← hks]
  · rw [sortKeys, if_neg hl, h, sortIfNeeded, if_neg (fun hh => hl (hlen ▸ hh))]

theorem exbind_ok {α β : Type} (a : α) (f : α → Except PyErr β) :
    (Except.ok a >>= f : Except PyErr β) = f a := rfl

theorem expure_eq (a : α) : (pure a : Except PyErr α) = Except.ok a := rfl

theorem entryOk_parts {fs : List (String × JVal)} (h : entryOk (.obj fs) = true) :
    (∃ ps, (assocLookup "params" fs).getD (.obj []) = .obj ps ∧
        strOrAbsent ps "category" = true ∧ strOrAbsent ps "format" = true) ∧
    (assocLookup "backend" fs).isSome = true ∧
    (∃ bs, assocLookup "benchmark" fs = some (.str bs)) ∧
    (∃ pm, assocLookup "primaryMetric" fs = some (.obj pm) ∧
        numOk (assocLookup "score" pm) = true ∧
        numOk (assocLookup "scoreError" pm) = true) := by
  simp only [entryOk, Bool.and_eq_true] at h
  obtain ⟨⟨⟨h1, h2⟩, h3⟩, h4⟩ := h
  refine ⟨?_, h2, ?_, ?_⟩
  · cases hps : (assocLookup "params" fs).getD (.obj []) <;> simp [hps] at h1
    case obj ps => exact ⟨ps, rfl, h1.1, h1.2⟩
  · cases hbm : assocLookup "benchmark" fs <;> simp [hbm] at h3
    case some v =>
      cases v <;> simp at h3
      case str s => exact ⟨s, rfl⟩
  · cases hpm : assocLookup "primaryMetric" fs <;> simp [hpm] at h4
    case some v =>
      cases v <;> simp at h4
      case obj pm => exact ⟨pm, rfl, h4.1, h4.2⟩

theorem strOrAbsent_getD {ps : List (String × JVal)} {k : String}
    (h : strOrAbsent ps k = true) :
    ∃ s, (assocLookup k ps).getD (.str "N/A") = .str s := by
  cases hl : assocLookup k ps with
  | none => exact ⟨"N/A", rfl⟩
  | some v =>
      cases v <;> simp [strOrAbsent, hl] at h
      case str s => exact ⟨s, rfl⟩

theorem numOk_asNum {ov : Option JVal} (h : numOk ov = true) :
    ∃ v q, ov = some v ∧ asNum v = .ok q := by
  cases ov with
  | none => simp [numOk] at h
  | some v =>
      cases v <;> simp [numOk] at h
      case num q => exact ⟨.num q, q, rfl, rfl⟩
      case bool b => exact ⟨.bool b, if b then 1 else 0, rfl, rfl⟩

theorem entryOk_groupKey {e : JVal} (h : entryOk e = true) :
    ∃ c f : String, groupKey e = .ok (.str c, .str f) := by
  cases e with
  | obj fs =>
      obtain ⟨⟨ps, hps, hc, hf⟩, -, -, -⟩ := entryOk_parts h
      obtain ⟨c, hcat⟩ := strOrAbsent_getD hc
      obtain ⟨f, hfmt⟩ := strOrAbsent_getD hf
      exact ⟨c, f, by simp [groupKey, hps, hcat, hfmt]⟩
  | null => simp [entryOk] at h
  | bool b => simp [entryOk] at h
  | str s => simp [entryOk] at h
  | num q => simp [entryOk] at h
  | arr xs => simp [entryOk] at h

theorem entryOk_getScore {e : JVal} (h : entryOk e = true) :
    ∃ s, getScoreExc e = .ok s := by
  cases e with
  | obj fs =>
      obtain ⟨-, -, -, pm, hpm, hsc, -⟩ := entryOk_parts h
      obtain ⟨v, q, hv, hq⟩ := numOk_asNum hsc
      exact ⟨q, by simp [getScoreExc, hpm, hv, hq]⟩
  | null => simp [entryOk] at h
  | bool b => simp [entryOk] at h
  | str s => simp [entryOk] at h
  | num q => simp [entryOk] at h
  | arr xs => simp [entryOk] at h

theorem entryOk_renderRow {e : JVal} (h : entryOk e = true) :
    ∃ row, renderRow e = .ok row := by
  cases e with
  | obj fs =>
      obtain ⟨-, hb, ⟨bs, hbm⟩, pm, hpm, hsc, hse⟩ := entryOk_parts h
      obtain ⟨bv, hbv⟩ := Option.isSome_iff_exists.mp hb
      obtain ⟨sv, sq, hsv, hsq⟩ := numOk_asNum hsc
      obtain ⟨ev, eq2, hev, heq⟩ := numOk_asNum hse
      simp only [renderRow, hbv, hbm, hpm, hsv, hsq, hev, heq, exbind_ok]
      exact ⟨_, rfl⟩
  | null => simp [entryOk] at h
  | bool b => simp [entryOk] at h
  | str s => simp [entryOk] at h
  | num q => simp [entryOk] at h
  | arr xs => simp [entryOk] at h

theorem mapM_score_spec : ∀ (es : List JVal),
    (∀ e ∈ es, ∃ s, getScoreExc e = .ok s) →
    ∃ pairs : List (Rat × JVal),
      es.mapM (fun e => do
        let s ← getScoreExc e
        pure ((s, e) : Rat × JVal)) = .ok pairs ∧
      pairs.map Prod.snd = es ∧ ∀ p ∈ pairs, getScoreExc p.2 = .ok p.1 := by
  intro es
  induction es with
  | nil => exact fun _ => ⟨[], rfl, rfl, by simp⟩
  | cons e rest ih =>
      intro h
      obtain ⟨s, hs⟩ := h e (by simp)
      obtain ⟨pairs, hp, hmap, hpt⟩ := ih (fun x hx => h x (by simp [hx]))
      refine ⟨(s, e) :: pairs, ?_, by simp [hmap], ?_⟩
      · simp only [List.mapM_cons, hs, exbind_ok, expure_eq]
        simp only [expure_eq] at hp
        rw [hp, exbind_ok]
      · intro p hp2
        rcases List.mem_cons.mp hp2 with rfl | hp3
        · exact hs
        · exact hpt p hp3

theorem sortGroup_ok {es : List JVal} (h : ∀ e ∈ es, entryOk e = true) :
    ∃ sorted, sortGroup es = .ok sorted ∧ sorted.Perm es ∧
      List.Pairwise scoreGe sorted := by
  obtain ⟨pairs, hp, hmap, hpt⟩ := mapM_score_spec es (fun e he => entryOk_getScore (h e he))
  refine ⟨(List.insertionSort scoreDescLe pairs).map Prod.snd, ?_, ?_, ?_⟩
  · simp only [sortGroup, expure_eq]
    simp only [expure_eq] at hp
    rw [hp, exbind_ok]
  · have hperm := (List.perm_insertionSort scoreDescLe pairs).map Prod.snd
    rw [hmap] at hperm
    exact hperm
  · have hsorted : List.Pairwise scoreDescLe (List.insertionSort scoreDescLe pairs) :=
      List.sorted_insertionSort scoreDescLe pairs
    have hmem : ∀ p ∈ List.insertionSort scoreDescLe pairs, getScoreExc p.2 = .ok p.1 :=
      fun p hp2 => hpt p ((List.perm_insertionSort scoreDescLe pairs).subset hp2)
    have h2 : List.Pairwise (fun a b : Rat × JVal => scoreGe a.2 b.2)
        (List.insertionSort scoreDescLe pairs) :=
      List.Pairwise.imp_of_mem (fun ha hb hr => ⟨_, _, hmem _ ha, hmem _ hb, hr⟩) hsorted
    exact List.pairwise_map.mpr h2

theorem renderRowsAux_ok : ∀ (es : List JVal),
    (∀ e ∈ es, ∃ row, renderRow e = .ok row) →
    ∃ rows, renderRowsAux es = (rows, none) ∧
      es.mapM renderRow = .ok rows ∧ rows.length = es.length := by
  intro es
  induction es with
  | nil => exact fun _ => ⟨[], rfl, rfl, rfl⟩
  | cons e rest ih =>
      intro h
      obtain ⟨row, hrow⟩ := h e (by simp)
      obtain ⟨rows, ha, hm, hl⟩ := ih (fun x hx => h x (by simp [hx]))
      refine ⟨row :: rows, ?_, ?_, by simp [hl]⟩
      · simp [renderRowsAux, hrow, ha]
      · simp only [List.mapM_cons, hrow, hm, exbind_ok, expure_eq]

theorem sectionRows_length {grouped : List (Key × List JVal)} {k : Key}
    (h : ∀ e ∈ groupEntries k grouped, entryOk e = true) :
    (sectionRows grouped k).length = (groupEntries k grouped).length := by
  obtain ⟨sorted, hs, hperm, -⟩ := sortGroup_ok h
  obtain ⟨rows, ha, -, hl⟩ := renderRowsAux_ok sorted
    (fun e he => entryOk_renderRow (h e (hperm.subset he)))
  simp [sectionRows, hs, ha, hl, hperm.length_eq]

theorem renderSections_ok (grouped : List (Key × List JVal)) :
    ∀ keys : List Key,
      (∀ k ∈ keys, ∀ e ∈ groupEntries k grouped, entryOk e = true) →
      renderSections grouped keys = (keys.flatMap (sectionChunks grouped), none) := by
  intro keys
  induction keys with
  | nil => exact fun _ => rfl
  | cons k rest ih =>
      intro h
      obtain ⟨sorted, hs, hperm, -⟩ := sortGroup_ok (h k (by simp))
      have hrows : ∀ e ∈ sorted, ∃ row, renderRow e = .ok row :=
        fun e he => entryOk_renderRow (h k (by simp) e (hperm.subset he))
      obtain ⟨rows, ha, -, -⟩ := renderRowsAux_ok sorted hrows
      have hrest := ih (fun k2 hk2 => h k2 (by simp [hk2]))
      simp only [renderSections, hs, ha, hrest, List.flatMap_cons, sectionChunks,
        sectionRows]

theorem groupResults_facts {results : List JVal}
    (hok : ∀ e ∈ results, entryOk e = true) :
    ∃ grouped, groupResults results = .ok grouped ∧
      (grouped.flatMap Prod.snd).Perm results ∧
      (grouped.map Prod.fst).Nodup ∧
      (∀ k, k ∈ grouped.map Prod.fst ↔ ∃ e ∈ results, groupKey e = .ok k) ∧
      (∀ p ∈ grouped, ∀ x ∈ p.2, groupKey x = .ok p.1) ∧
      (∀ p ∈ grouped, ∀ x ∈ p.2, entryOk x = true) := by
  obtain ⟨grouped, hg⟩ := groupResultsAux_ok results [] (fun x hx => by
    obtain ⟨c, f, hcf⟩ := entryOk_groupKey (hok x hx)
    exact ⟨_, hcf⟩)
  have hjoin := groupResultsAux_join results [] grouped hg
  simp only [List.flatMap_nil, List.nil_append] at hjoin
  have hnd := groupResultsAux_nodup results [] grouped hg (by simp)
  have hmem := groupResultsAux_mem_keys results [] grouped hg
  have hcor := groupResultsAux_correct results [] grouped hg (by simp)
  refine ⟨grouped, hg, hjoin, hnd, ?_, hcor, ?_⟩
  · intro k
    rw [hmem k]
    simp
  · intro p hp x hx
    exact hok x (hjoin.subset (List.mem_flatMap.mpr ⟨p, hp, hx⟩))

theorem generate_markdown_ok {results : List JVal} (hne : results ≠ [])
    (hok : ∀ e ∈ results, entryOk e = true) :
    ∃ grouped keys,
      groupResults results = .ok grouped ∧
      sortKeys (grouped.map Prod.fst) = .ok keys ∧
      (∃ sks : List (String × String), keys = sks.map wrapKey ∧
        List.Sorted pairLe sks) ∧
      keys.Perm (grouped.map Prod.fst) ∧
      generate_markdown results =
        { log := ["Markdown report generated: BENCHMARK_RESULTS.md"],
          file := some (reportTitle :: keys.flatMap (sectionChunks grouped)),
          err := none } := by
  obtain ⟨grouped, hg, hjoin, hnd, hkeys, hcor, hent⟩ := groupResults_facts hok
  have hstr : ∀ k ∈ grouped.map Prod.fst, ∃ p, keyStrs k = some p := by
    intro k hk
    obtain ⟨e, he, hke⟩ := (hkeys k).mp hk
    obtain ⟨c, f, hcf⟩ := entryOk_groupKey (hok e he)
    rw [hke] at hcf
    have hk2 : k = (.str c, .str f) := Except.ok.inj hcf
    exact ⟨(c, f), by rw [hk2]; rfl⟩
  obtain ⟨sks, hsks⟩ := mapM_keyStrs_of_forall _ hstr
  have hsort := sortKeys_eq hsks
  have hkeq : grouped.map Prod.fst = sks.map wrapKey := mapM_keyStrs_eq _ _ hsks
  have hperm : ((sortIfNeeded sks).map wrapKey).Perm (grouped.map Prod.fst) := by
    rw [hkeq]
    exact (sortIfNeeded_perm sks).map wrapKey
  have hsec : ∀ k ∈ (sortIfNeeded sks).map wrapKey,
      ∀ e ∈ groupEntries k grouped, entryOk e = true := by
    intro k hk e he
    have hk2 : k ∈ grouped.map Prod.fst := hperm.subset hk
    obtain ⟨p, hp, hpk⟩ := List.mem_map.mp hk2
    have hpe : (k, p.2) = p := Prod.ext hpk.symm rfl
    have hge : groupEntries k grouped = p.2 :=
      groupEntries_eq grouped k p.2 hnd (hpe ▸ hp)
    rw [hge] at he
    exact hent p hp e he
  have hrender := renderSections_ok grouped ((sortIfNeeded sks).map wrapKey) hsec
  refine ⟨grouped, (sortIfNeeded sks).map wrapKey, hg, hsort,
    ⟨sortIfNeeded sks, rfl, sortIfNeeded_sorted sks⟩, hperm, ?_⟩
  simp only [generate_markdown, if_neg hne, hg, hsort, hrender]
  simp

theorem exbind_err {α β : Type} (e : PyErr) (f : α → Except PyErr β) :
    (Except.error e >>= f : Except PyErr β) = Except.error e := rfl

theorem stepBackend_fail {env : Env} {b cls : String}
    (h : (env b).returncode ≠ 0) :
    stepBackend env b cls =
      { log := ["Testing backend: " ++ b,
                "Running: " ++ gradleCommand b cls,
                "Command failed with return code " ++ toString (env b).returncode,
                "STDOUT: " ++ (env b).stdout,
                "STDERR: " ++ (env b).stderr,
                "Error: Benchmark failed for " ++ b],
        copied := [], res := .ok [] } := by
  simp [stepBackend, runCommandLog, h]

theorem stepBackend_noFile {env : Env} {b cls : String}
    (h0 : (env b).returncode = 0) (h1 : (env b).fileExists = false) :
    stepBackend env b cls =
      { log := ["Testing backend: " ++ b, "Running: " ++ gradleCommand b cls,
                "Warning: Result file " ++ srcJsonPath ++ " not found for " ++ b],
        copied := [], res := .ok [] } := by
  simp [stepBackend, runCommandLog, h0, h1]

theorem stepBackend_parsed {env : Env} {b cls : String} {v : JVal}
    (h0 : (env b).returncode = 0) (h1 : (env b).fileExists = true)
    (h2 : (env b).parse = some v) :
    stepBackend env b cls =
      { log := ["Testing backend: " ++ b, "Running: " ++ gradleCommand b cls],
        copied := [resultFileName b], res := tagData b v } := by
  simp [stepBackend, runCommandLog, h0, h1, h2]

theorem collectAux_cons_ok {env : Env} {b cls : String} {es : List JVal}
    (h : (stepBackend env b cls).res = .ok es) (rest : List (String × String)) :
    collectAux env ((b, cls) :: rest) =
      { log := (stepBackend env b cls).log ++ (collectAux env rest).log,
        dirFiles := (stepBackend env b cls).copied ++ (collectAux env rest).dirFiles,
        results := es ++ (collectAux env rest).results,
        err := (collectAux env rest).err } := by
  simp [collectAux, h]

theorem mapM_tagEntry_ok {b : String} : ∀ (xs : List JVal),
    (∀ x ∈ xs, rawEntryOk x = true) →
    ∃ es, xs.mapM (tagEntry b) = .ok es ∧ ∀ e ∈ es, entryOk e = true := by
  intro xs
  induction xs with
  | nil => exact fun _ => ⟨[], rfl, by simp⟩
  | cons x rest ih =>
      intro h
      obtain ⟨fs, hfs, htag, hok⟩ := entryOk_tagEntry b x (h x (by simp))
      obtain ⟨es, hes, hoks⟩ := ih (fun y hy => h y (by simp [hy]))
      refine ⟨.obj (setKey fs "backend" (.str b)) :: es, ?_, ?_⟩
      · simp only [List.mapM_cons, htag, hes, exbind_ok, expure_eq]
      · intro e he
        rcases List.mem_cons.mp he with rfl | he2
        · exact hok
        · exact hoks e he2

theorem mapM_tagEntry_mem {b : String} : ∀ (xs : List JVal) (es : List JVal),
    xs.mapM (tagEntry b) = .ok es →
    ∀ e ∈ es, ∃ fs, e = .obj (setKey fs "backend" (.str b)) := by
  intro xs
  induction xs with
  | nil =>
      intro es h e he
      simp only [List.mapM_nil, expure_eq, Except.ok.injEq] at h
      rw [← h] at he
      cases he
  | cons x rest ih =>
      intro es h e he
      rw [List.mapM_cons] at h
      cases hx : tagEntry b x with
      | error ex => rw [hx] at h; simp [exbind_err] at h
      | ok y =>
          rw [hx] at h
          cases hrest : rest.mapM (tagEntry b) with
          | error ex => rw [hrest] at h; simp [exbind_ok, exbind_err] at h
          | ok ys =>
              rw [hrest] at h
              simp only [exbind_ok, expure_eq, Except.ok.injEq] at h
              rw [← h] at he
              rcases List.mem_cons.mp he with rfl | he2
              · cases x <;> simp only [tagEntry, Except.ok.injEq] at hx
                case obj fs => exact ⟨fs, hx.symm⟩
                all_goals exact absurd hx (by simp)
              · exact ih ys hrest e he2

theorem stepBackend_parseErr {env : Env} {b cls : String}
    (h0 : (env b).returncode = 0) (h1 : (env b).fileExists = true)
    (h2 : (env b).parse = none) :
    stepBackend env b cls =
      { log := ["Testing backend: " ++ b, "Running: " ++ gradleCommand b cls],
        copied := [resultFileName b], res := .error .jsonDecodeError } := by
  simp [stepBackend, runCommandLog, h0, h1, h2]

theorem collectAux_cons_err {env : Env} {b cls : String} {ex : PyErr}
    (h : (stepBackend env b cls).res = .error ex) (rest : List (String × String)) :
    collectAux env ((b, cls) :: rest) =
      { log := (stepBackend env b cls).log,
        dirFiles := (stepBackend env b cls).copied,
        results := [], err := some ex } := by
  simp [collectAux, h]

theorem collectAux_ok_of_envOk (env : Env) : ∀ (bs : List (String × String)),
    (∀ p ∈ bs, (env p.1).returncode = 0 → (env p.1).fileExists = true →
      ∃ xs, (env p.1).parse = some (.arr xs) ∧ ∀ x ∈ xs, rawEntryOk x = true) →
    (collectAux env bs).err = none ∧
    ∀ e ∈ (collectAux env bs).results, entryOk e = true := by
  intro bs
  induction bs with
  | nil => exact fun _ => ⟨rfl, by simp [collectAux]⟩
  | cons p rest ih =>
      obtain ⟨b, cls⟩ := p
      intro h
      obtain ⟨hrest_err, hrest_ok⟩ := ih (fun q hq => h q (by simp [hq]))
      by_cases hrc : (env b).returncode = 0
      · cases hex : (env b).fileExists with
        | true =>
            obtain ⟨xs, hparse, hraw⟩ := h (b, cls) (by simp) hrc hex
            obtain ⟨es, hes, hoks⟩ := mapM_tagEntry_ok xs hraw
            have hres : (stepBackend env b cls).res = .ok es := by
              rw [stepBackend_parsed hrc hex hparse]
              simpa [tagData] using hes
            rw [collectAux_cons_ok hres rest]
            refine ⟨hrest_err, ?_⟩
            intro e he
            rcases List.mem_append.mp he with he2 | he2
            · exact hoks e he2
            · exact hrest_ok e he2
        | false =>
            have hres : (stepBackend env b cls).res = .ok [] := by
              rw [stepBackend_noFile hrc hex]
            rw [collectAux_cons_ok hres rest]
            exact ⟨hrest_err, fun e he => hrest_ok e (by simpa using he)⟩
      · have hres : (stepBackend env b cls).res = .ok [] := by
          rw [stepBackend_fail hrc]
        rw [collectAux_cons_ok hres rest]
        exact ⟨hrest_err, fun e he => hrest_ok e (by simpa using he)⟩

theorem collectAux_dirFiles (env : Env) : ∀ (bs : List (String × String)),
    (collectAux env bs).err = none →
    (collectAux env bs).dirFiles =
      (bs.filter (fun p => (env p.1).returncode = 0 && (env p.1).fileExists)).map
        (fun p => resultFileName p.1) := by
  intro bs
  induction bs with
  | nil => exact fun _ => rfl
  | cons p rest ih =>
      obtain ⟨b, cls⟩ := p
      intro herr
      by_cases hrc : (env b).returncode = 0
      · cases hex : (env b).fileExists with
        | true =>
            cases hparse : (env b).parse with
            | none =>
                rw [collectAux_cons_err (by rw [stepBackend_parseErr hrc hex hparse]) rest] at herr
                simp at herr
            | some v =>
                cases hres : tagData b v with
                | error ex =>
                    rw [collectAux_cons_err
                      (by rw [stepBackend_parsed hrc hex hparse]; exact hres) rest] at herr
                    simp at herr
                | ok es =>
                    have hstep : (stepBackend env b cls).res = .ok es := by
                      rw [stepBackend_parsed hrc hex hparse]
                      exact hres
                    rw [collectAux_cons_ok hstep rest] at herr ⊢
                    have hrest := ih herr
                    simp [stepBackend_parsed hrc hex hparse, List.filter_cons, hrc, hex, hrest]
        | false =>
            have hstep : (stepBackend env b cls).res = .ok [] := by
              rw [stepBackend_noFile hrc hex]
            rw [collectAux_cons_ok hstep rest] at herr ⊢
            have hrest := ih herr
            simp [stepBackend_noFile hrc hex, List.filter_cons, hrc, hex, hrest]
      · have hstep : (stepBackend env b cls).res = .ok [] := by
          rw [stepBackend_fail hrc]
        rw [collectAux_cons_ok hstep rest] at herr ⊢
        have hrest := ih herr
        simp [stepBackend_fail hrc, List.filter_cons, hrc, hrest]

theorem collectAux_results_mem (env : Env) : ∀ (bs : List (String × String)),
    ∀ e ∈ (collectAux env bs).results, ∃ p ∈ bs, (env p.1).returncode = 0 ∧
      (env p.1).fileExists = true ∧ ∃ v es, (env p.1).parse = some v ∧
        tagData p.1 v = .ok es ∧ e ∈ es := by
  intro bs
  induction bs with
  | nil => intro e he; cases he
  | cons p rest ih =>
      obtain ⟨b, cls⟩ := p
      intro e he
      by_cases hrc : (env b).returncode = 0
      · cases hex : (env b).fileExists with
        | true =>
            cases hparse : (env b).parse with
            | none =>
                rw [collectAux_cons_err (by rw [stepBackend_parseErr hrc hex hparse]) rest] at he
                cases he
            | some v =>
                cases hres : tagData b v with
                | error ex =>
                    rw [collectAux_cons_err
                      (by rw [stepBackend_parsed hrc hex hparse]; exact hres) rest] at he
                    cases he
                | ok es =>
                    rw [collectAux_cons_ok
                      (by rw [stepBackend_parsed hrc hex hparse]; exact hres) rest] at he
                    rcases List.mem_append.mp he with he2 | he2
                    · exact ⟨(b, cls), by simp, hrc, hex, v, es, hparse, hres, he2⟩
                    · obtain ⟨q, hq, hrest⟩ := ih e he2
                      exact ⟨q, by simp [hq], hrest⟩
        | false =>
            rw [collectAux_cons_ok (by rw [stepBackend_noFile hrc hex]) rest] at he
            obtain ⟨q, hq, hrest⟩ := ih e (by simpa using he)
            exact ⟨q, by simp [hq], hrest⟩
      · rw [collectAux_cons_ok (by rw [stepBackend_fail hrc]) rest] at he
        obtain ⟨q, hq, hrest⟩ := ih e (by simpa using he)
        exact ⟨q, by simp [hq], hrest⟩

theorem collectAux_log_of_ok (env : Env) : ∀ (bs : List (String × String)),
    (collectAux env bs).err = none → ∀ p ∈ bs,
      ∀ line ∈ (stepBackend env p.1 p.2).log, line ∈ (collectAux env bs).log := by
  intro bs
  induction bs with
  | nil => intro _ p hp; cases hp
  | cons q rest ih =>
      obtain ⟨b, cls⟩ := q
      intro herr p hp line hline
      cases hres : (stepBackend env b cls).res with
      | error ex =>
          rw [collectAux_cons_err hres rest] at herr
          simp at herr
      | ok es =>
          rw [collectAux_cons_ok hres rest] at herr ⊢
          rcases List.mem_cons.mp hp with rfl | hp2
          · exact List.mem_append.mpr (Or.inl hline)
          · exact List.mem_append.mpr (Or.inr (ih herr p hp2 line hline))

theorem envOkB_spec {env : Env} (h : envOkB env = true) :
    ∀ p ∈ backends, (env p.1).returncode = 0 → (env p.1).fileExists = true →
      ∃ xs, (env p.1).parse = some (.arr xs) ∧ ∀ x ∈ xs, rawEntryOk x = true := by
  intro p hp hrc hex
  simp only [envOkB] at h
  have h2 := List.all_eq_true.mp h p hp
  simp only [] at h2
  rw [if_pos (by simp [hrc, hex])] at h2
  cases hparse : (env p.1).parse with
  | none => simp [hparse] at h2
  | some v =>
      cases v <;> simp [hparse] at h2
      case arr xs => exact ⟨xs, rfl, fun x hx => h2 x hx⟩

theorem collect_results_ok_of_envOk (initDir : Option (List String)) {env : Env}
    (h : envOkB env = true) :
    (collect_results initDir env).err = none ∧
    ∀ e ∈ (collect_results initDir env).results, entryOk e = true := by
  have h2 := collectAux_ok_of_envOk env backends (envOkB_spec h)
  simpa [collect_results] using h2

theorem runScript_err_none {initDir : Option (List String)} {env : Env}
    (h : envOkB env = true) : (runScript initDir env).err = none := by
  obtain ⟨herr, hok⟩ := collect_results_ok_of_envOk initDir h
  simp only [runScript, herr]
  by_cases hres : (collect_results initDir env).results = []
  · simp [hres, generate_markdown]
  · obtain ⟨grouped, keys, -, -, -, -, hgen⟩ := generate_markdown_ok hres hok
    simp [hgen]

/-- C6: on an empty result list `generate_markdown` prints a message and
returns without opening or writing the report file. -/
theorem empty_results_skip_report :
    generate_markdown [] =
      { log := ["No results to process."], file := none, err := none } := rfl

/-- C4: when a backend's command exits non-zero, the step prints the captured
stdout and stderr and the failure message, copies nothing and contributes no
entries; the collection loop continues identically on the remaining
backends, and no collected entry is tagged with that backend. -/
theorem failed_backend_skipped (env : Env) (b cls : String)
    (h : (env b).returncode ≠ 0) :
    stepBackend env b cls =
      { log := ["Testing backend: " ++ b,
                "Running: " ++ gradleCommand b cls,
                "Command failed with return code " ++ toString (env b).returncode,
                "STDOUT: " ++ (env b).stdout,
                "STDERR: " ++ (env b).stderr,
                "Error: Benchmark failed for " ++ b],
        copied := [], res := .ok [] } ∧
    (∀ rest, collectAux env ((b, cls) :: rest) =
      { log := (stepBackend env b cls).log ++ (collectAux env rest).log,
        dirFiles := (collectAux env rest).dirFiles,
        results := (collectAux env rest).results,
        err := (collectAux env rest).err }) ∧
    (∀ initDir e, e ∈ (collect_results initDir env).results →
      ∀ fs, e = .obj fs → assocLookup "backend" fs ≠ some (.str b)) := by
  refine ⟨stepBackend_fail h, ?_, ?_⟩
  · intro rest
    rw [collectAux_cons_ok (by rw [stepBackend_fail h]) rest]
    rw [stepBackend_fail h]
    simp
  · intro initDir e he fs hefs hlk
    have he2 : e ∈ (collectAux env backends).results := by
      simpa [collect_results] using he
    obtain ⟨p, hp, hrc, hex, v, es, hparse, htag, hin⟩ :=
      collectAux_results_mem env backends e he2
    cases v with
    | arr xs =>
        have htag2 : xs.mapM (tagEntry p.1) = .ok es := by simpa [tagData] using htag
        obtain ⟨fs2, hfs2⟩ := mapM_tagEntry_mem xs es htag2 e hin
        rw [hefs] at hfs2
        injection hfs2 with hfs3
        rw [hfs3, assocLookup_setKey_self] at hlk
        injection hlk with hlk2
        injection hlk2 with hlk3
        rw [hlk3] at hrc
        exact h hrc
    | null => simp [tagData] at htag
    | bool b2 => simp [tagData] at htag
    | str s => simp [tagData] at htag
    | num q => simp [tagData] at htag
    | obj fs2 => simp [tagData] at htag

theorem failed_backend_skipped_witness :
    (envGood "log4j").returncode ≠ 0 ∧
    (stepBackend envGood "log4j" "Log4jBenchmark" =
      { log := ["Testing backend: " ++ "log4j",
                "Running: " ++ gradleCommand "log4j" "Log4jBenchmark",
                "Command failed with return code " ++
                  toString (envGood "log4j").returncode,
                "STDOUT: " ++ (envGood "log4j").stdout,
                "STDERR: " ++ (envGood "log4j").stderr,
                "Error: Benchmark failed for " ++ "log4j"],
        copied := [], res := .ok [] } ∧
    (∀ rest, collectAux envGood (("log4j", "Log4jBenchmark") :: rest) =
      { log := (stepBackend envGood "log4j" "Log4jBenchmark").log ++
          (collectAux envGood rest).log,
        dirFiles := (collectAux envGood rest).dirFiles,
        results := (collectAux envGood rest).results,
        err := (collectAux envGood rest).err }) ∧
    (∀ initDir e, e ∈ (collect_results initDir envGood).results →
      ∀ fs, e = .obj fs → assocLookup "backend" fs ≠ some (.str "log4j"))) :=
  ⟨by decide, failed_backend_skipped envGood "log4j" "Log4jBenchmark" (by decide)⟩

/-- C5: when a backend's command succeeds but the expected result file is
missing, the step prints the warning, copies nothing and contributes no
entries, and the collection loop continues on the remaining backends. -/
theorem missing_file_warned (env : Env) (b cls : String)
    (h0 : (env b).returncode = 0) (h1 : (env b).fileExists = false) :
    stepBackend env b cls =
      { log := ["Testing backend: " ++ b, "Running: " ++ gradleCommand b cls,
                "Warning: Result file " ++ srcJsonPath ++ " not found for " ++ b],
        copied := [], res := .ok [] } ∧
    ∀ rest, collectAux env ((b, cls) :: rest) =
      { log := (stepBackend env b cls).log ++ (collectAux env rest).log,
        dirFiles := (collectAux env rest).dirFiles,
        results := (collectAux env rest).results,
        err := (collectAux env rest).err } := by
  refine ⟨stepBackend_noFile h0 h1, ?_⟩
  intro rest
  rw [collectAux_cons_ok (by rw [stepBackend_noFile h0 h1]) rest]
  rw [stepBackend_noFile h0 h1]
  simp

theorem missing_file_warned_witness :
    ((envNoFile "lumberjack").returncode = 0 ∧
      (envNoFile "lumberjack").fileExists = false) ∧
    (stepBackend envNoFile "lumberjack" "LumberjackBenchmark" =
      { log := ["Testing backend: " ++ "lumberjack",
                "Running: " ++ gradleCommand "lumberjack" "LumberjackBenchmark",
                "Warning: Result file " ++ srcJsonPath ++ " not found for " ++
                  "lumberjack"],
        copied := [], res := .ok [] } ∧
    ∀ rest, collectAux envNoFile (("lumberjack", "LumberjackBenchmark") :: rest) =
      { log := (stepBackend envNoFile "lumberjack" "LumberjackBenchmark").log ++
          (collectAux envNoFile rest).log,
        dirFiles := (collectAux envNoFile rest).dirFiles,
        results := (collectAux envNoFile rest).results,
        err := (collectAux envNoFile rest).err }) :=
  ⟨⟨by decide, by decide⟩,
    missing_file_warned envNoFile "lumberjack" "LumberjackBenchmark"
      (by decide) (by decide)⟩

/-- C7: collection only tags an entry: it sets the `backend` field to the
backend name, leaves every other field unchanged, and the entries a backend
contributes are exactly its parsed file entries so tagged. -/
theorem tagging_only_sets_backend (b : String) (fs : List (String × JVal)) :
    tagEntry b (.obj fs) = .ok (.obj (setKey fs "backend" (.str b))) ∧
    assocLookup "backend" (setKey fs "backend" (.str b)) = some (.str b) ∧
    (∀ k, k ≠ "backend" →
      assocLookup k (setKey fs "backend" (.str b)) = assocLookup k fs) ∧
    ∀ (env : Env) (cls : String) (xs : List JVal),
      (env b).returncode = 0 → (env b).fileExists = true →
      (env b).parse = some (.arr xs) →
      (stepBackend env b cls).res = xs.mapM (tagEntry b) := by
  refine ⟨rfl, assocLookup_setKey_self fs "backend" (.str b),
    fun k hk => assocLookup_setKey_ne fs "backend" k (.str b) hk, ?_⟩
  intro env cls xs h0 h1 h2
  rw [stepBackend_parsed h0 h1 h2]
  rfl

theorem tagging_only_sets_backend_witness :
    ("params" ≠ "backend" ∧
      assocLookup "params" (setKey [("params", JVal.null)] "backend" (.str "a")) =
        assocLookup "params" [("params", JVal.null)]) ∧
    ((envGood "lumberjack").returncode = 0 ∧
      (envGood "lumberjack").fileExists = true ∧
      (envGood "lumberjack").parse = some (.arr goodRawEntries) ∧
      (stepBackend envGood "lumberjack" "LumberjackBenchmark").res =
        goodRawEntries.mapM (tagEntry "lumberjack")) :=
  ⟨⟨by decide,
    (tagging_only_sets_backend "a" [("params", JVal.null)]).2.2.1 "params" (by decide)⟩,
   ⟨by decide, by decide, rfl,
    (tagging_only_sets_backend "lumberjack" []).2.2.2 envGood "LumberjackBenchmark"
      goodRawEntries (by decide) (by decide) rfl⟩⟩

/-- C9: a missing `params` field, or missing `category`/`format` keys,
default to the string `N/A`; the key computation does not fail and the entry
is placed in the group of its key. -/
theorem missing_params_defaults :
    (∀ fs, assocLookup "params" fs = none →
      groupKey (.obj fs) = .ok (.str "N/A", .str "N/A")) ∧
    (∀ fs ps, assocLookup "params" fs = some (.obj ps) →
      groupKey (.obj fs) =
        .ok ((assocLookup "category" ps).getD (.str "N/A"),
             (assocLookup "format" ps).getD (.str "N/A"))) ∧
    (∀ fs ps, assocLookup "params" fs = some (.obj ps) →
      assocLookup "category" ps = none → assocLookup "format" ps = none →
      groupKey (.obj fs) = .ok (.str "N/A", .str "N/A")) ∧
    (∀ results grouped e k, groupResults results = .ok grouped → e ∈ results →
      groupKey e = .ok k → ∃ es, (k, es) ∈ grouped ∧ e ∈ es) := by
  refine ⟨?_, ?_, ?_, ?_⟩
  · intro fs h
    simp [groupKey, h, assocLookup]
  · intro fs ps h
    simp [groupKey, h]
  · intro fs ps h hc hf
    simp [groupKey, h, hc, hf]
  · intro results grouped e k hg he hk
    have hjoin := groupResultsAux_join results [] grouped hg
    simp only [List.flatMap_nil, List.nil_append] at hjoin
    have hcor := groupResultsAux_correct results [] grouped hg (by simp)
    have hmem : e ∈ grouped.flatMap Prod.snd := hjoin.mem_iff.mpr he
    obtain ⟨p, hp, hin⟩ := List.mem_flatMap.mp hmem
    have hpk : groupKey e = .ok p.1 := hcor p hp e hin
    rw [hk] at hpk
    have : k = p.1 := Except.ok.inj hpk
    exact ⟨p.2, by rw [this]; exact (Prod.ext rfl rfl : (p.1, p.2) = p) ▸ hp, hin⟩

theorem missing_params_defaults_witness :
    (assocLookup "params" [("benchmark", JVal.str "x")] = none ∧
      groupKey (.obj [("benchmark", JVal.str "x")]) = .ok (.str "N/A", .str "N/A")) ∧
    (groupResults [entryA, entryB] =
        .ok [((.str "CONSOLE", .str "plain"), [entryA, entryB])] ∧
      entryA ∈ [entryA, entryB] ∧
      groupKey entryA = .ok (.str "CONSOLE", .str "plain") ∧
      ∃ es, ((JVal.str "CONSOLE", JVal.str "plain"), es) ∈
          [((JVal.str "CONSOLE", JVal.str "plain"), [entryA, entryB])] ∧ entryA ∈ es) :=
  ⟨⟨rfl, missing_params_defaults.1 [("benchmark", JVal.str "x")] rfl⟩,
   ⟨rfl, by simp, rfl,
    missing_params_defaults.2.2.2 [entryA, entryB]
      [((JVal.str "CONSOLE", JVal.str "plain"), [entryA, entryB])] entryA
      (JVal.str "CONSOLE", JVal.str "plain") rfl (by simp) rfl⟩⟩

/-- C1: within each (category, format) group the rendered table lists the
entries in descending order of `primaryMetric.score`: each group's rows are
a permutation of the group sorted so that scores are non-increasing, and
those rows appear contiguously in the written file; in particular the two
synthetic entries for backends "a" and "b" with scores 100.0 and 50.0 render
with the "a" row before the "b" row. -/
theorem rows_sorted_by_score_desc :
    (∀ (results : List JVal) (grouped : List (Key × List JVal)) (k : Key)
        (es : List JVal),
      (∀ e ∈ results, entryOk e = true) →
      groupResults results = .ok grouped →
      (k, es) ∈ grouped →
      ∃ sorted rows pre post,
        sortGroup es = .ok sorted ∧
        sorted.Perm es ∧
        List.Pairwise scoreGe sorted ∧
        sorted.mapM renderRow = .ok rows ∧
        (generate_markdown results).file =
          some (pre ++ sectionHeader k ++ rows ++ ["\n"] ++ post)) ∧
    (generate_markdown [entryA, entryB]).file =
      some ["# Logging Benchmark Results\n\n",
            "## Category: CONSOLE, Format: plain\n\n",
            "| Backend | Benchmark | Score (ops/s) | Error |\n",
            "|---------|-----------|---------------|-------|\n",
            "| a | TestA | 100.00 | 1.00 |\n",
            "| b | TestB | 50.00 | 1.00 |\n",
            "\n"] := by
  constructor
  · intro results grouped k es hok hg hmem
    have hne : results ≠ [] := by
      intro hnil
      subst hnil
      simp only [groupResults, groupResultsAux, Except.ok.injEq] at hg
      rw [← hg] at hmem
      cases hmem
    obtain ⟨grouped2, keys, hg2, hsort, -, hperm, hgen⟩ := generate_markdown_ok hne hok
    rw [hg] at hg2
    have hgeq : grouped2 = grouped := (Except.ok.inj hg2).symm
    subst hgeq
    obtain ⟨grouped3, hg3, hjoin, hnd, -, -, hent⟩ := groupResults_facts hok
    rw [hg] at hg3
    have hgeq3 : grouped3 = grouped2 := (Except.ok.inj hg3).symm
    subst hgeq3
    have hesok : ∀ e ∈ es, entryOk e = true := fun e he => hent (k, es) hmem e he
    obtain ⟨sorted, hsorted, hperm2, hpair⟩ := sortGroup_ok hesok
    obtain ⟨rows, hrows, hmapM, -⟩ := renderRowsAux_ok sorted
      (fun e he => entryOk_renderRow (hesok e (hperm2.subset he)))
    have hk : k ∈ keys := hperm.mem_iff.mpr (List.mem_map.mpr ⟨(k, es), hmem, rfl⟩)
    obtain ⟨l1, l2, hsplit⟩ := List.append_of_mem hk
    have hge : groupEntries k grouped3 = es := groupEntries_eq grouped3 k es hnd hmem
    have hchunks : sectionChunks grouped3 k = sectionHeader k ++ rows ++ ["\n"] := by
      simp [sectionChunks, sectionRows, hge, hsorted, hrows]
    refine ⟨sorted, rows, reportTitle :: l1.flatMap (sectionChunks grouped3),
      l2.flatMap (sectionChunks grouped3), hsorted, hperm2, hpair, hmapM, ?_⟩
    rw [hgen, hsplit]
    simp [List.flatMap_append, List.flatMap_cons, hchunks, List.append_assoc]
  · decide

theorem rows_sorted_by_score_desc_witness :
    ((∀ e ∈ [entryA, entryB], entryOk e = true) ∧
      groupResults [entryA, entryB] =
        .ok [((.str "CONSOLE", .str "plain"), [entryA, entryB])] ∧
      ((JVal.str "CONSOLE", JVal.str "plain"), [entryA, entryB]) ∈
        [((JVal.str "CONSOLE", JVal.str "plain"), [entryA, entryB])]) ∧
    (∃ sorted rows pre post,
      sortGroup [entryA, entryB] = .ok sorted ∧
      sorted.Perm [entryA, entryB] ∧
      List.Pairwise scoreGe sorted ∧
      sorted.mapM renderRow = .ok rows ∧
      (generate_markdown [entryA, entryB]).file =
        some (pre ++ sectionHeader (JVal.str "CONSOLE", JVal.str "plain") ++
          rows ++ ["\n"] ++ post)) :=
  ⟨⟨by decide, rfl, by simp⟩,
   rows_sorted_by_score_desc.1 [entryA, entryB]
     [((JVal.str "CONSOLE", JVal.str "plain"), [entryA, entryB])]
     (JVal.str "CONSOLE", JVal.str "plain") [entryA, entryB]
     (by decide) rfl (by simp)⟩

/-- C2: on a non-empty well-formed result list the generated markdown has
exactly one table section per distinct (category, format) pair — the section
keys are exactly the distinct group keys, with no duplicates — and the
sections appear in ascending lexicographic order of the pair. -/
theorem one_sorted_section_per_pair (results : List JVal)
    (hne : results ≠ []) (hok : ∀ e ∈ results, entryOk e = true) :
    ∃ grouped keys,
      groupResults results = .ok grouped ∧
      sortKeys (grouped.map Prod.fst) = .ok keys ∧
      keys.Nodup ∧
      (∀ k, k ∈ keys ↔ ∃ e ∈ results, groupKey e = .ok k) ∧
      (∃ sks : List (String × String), keys = sks.map wrapKey ∧
        List.Sorted pairLe sks) ∧
      (generate_markdown results).file =
        some (reportTitle :: keys.flatMap (sectionChunks grouped)) := by
  obtain ⟨grouped, keys, hg, hsort, hsks, hperm, hgen⟩ := generate_markdown_ok hne hok
  obtain ⟨grouped3, hg3, -, hnd, hkeys, -, -⟩ := groupResults_facts hok
  rw [hg] at hg3
  have hgeq3 : grouped3 = grouped := (Except.ok.inj hg3).symm
  subst hgeq3
  refine ⟨grouped3, keys, hg, hsort, ?_, ?_, hsks, by rw [hgen]⟩
  · exact hperm.nodup_iff.mpr hnd
  · intro k
    rw [hperm.mem_iff]
    exact hkeys k

theorem one_sorted_section_per_pair_witness :
    ([entryA, entryC] ≠ [] ∧ ∀ e ∈ [entryA, entryC], entryOk e = true) ∧
    (∃ grouped keys,
      groupResults [entryA, entryC] = .ok grouped ∧
      sortKeys (grouped.map Prod.fst) = .ok keys ∧
      keys.Nodup ∧
      (∀ k, k ∈ keys ↔ ∃ e ∈ [entryA, entryC], groupKey e = .ok k) ∧
      (∃ sks : List (String × String), keys = sks.map wrapKey ∧
        List.Sorted pairLe sks) ∧
      (generate_markdown [entryA, entryC]).file =
        some (reportTitle :: keys.flatMap (sectionChunks grouped))) :=
  ⟨⟨by simp, by decide⟩,
   one_sorted_section_per_pair [entryA, entryC] (by simp) (by decide)⟩

/-- C10: grouping partitions a non-empty well-formed result list — the
groups' entries are a permutation of the input, keys are distinct, every
entry lies in exactly one group — and the report holds exactly one table row
per input entry. -/
theorem grouping_partitions_one_row_per_entry (results : List JVal)
    (hne : results ≠ []) (hok : ∀ e ∈ results, entryOk e = true) :
    ∃ grouped keys,
      groupResults results = .ok grouped ∧
      (grouped.flatMap Prod.snd).Perm results ∧
      (grouped.map Prod.fst).Nodup ∧
      (∀ e ∈ results, ∃ k es, (k, es) ∈ grouped ∧ e ∈ es ∧
        ∀ k2 es2, (k2, es2) ∈ grouped → e ∈ es2 → k2 = k ∧ es2 = es) ∧
      sortKeys (grouped.map Prod.fst) = .ok keys ∧
      (keys.map fun k => (sectionRows grouped k).length).sum = results.length ∧
      (generate_markdown results).file =
        some (reportTitle :: keys.flatMap (sectionChunks grouped)) := by
  obtain ⟨grouped, keys, hg, hsort, -, hperm, hgen⟩ := generate_markdown_ok hne hok
  obtain ⟨grouped3, hg3, hjoin, hnd, -, hcor, hent⟩ := groupResults_facts hok
  rw [hg] at hg3
  have hgeq3 : grouped3 = grouped := (Except.ok.inj hg3).symm
  subst hgeq3
  refine ⟨grouped3, keys, hg, hjoin, hnd, ?_, hsort, ?_, by rw [hgen]⟩
  · intro e he
    obtain ⟨p, hp, hin⟩ := List.mem_flatMap.mp (hjoin.mem_iff.mpr he)
    refine ⟨p.1, p.2, (Prod.ext rfl rfl : (p.1, p.2) = p) ▸ hp, hin, ?_⟩
    intro k2 es2 hp2 hin2
    have h1 : groupKey e = .ok p.1 := hcor p hp e hin
    have h2 : groupKey e = .ok k2 := hcor (k2, es2) hp2 e hin2
    rw [h1] at h2
    have hk : k2 = p.1 := (Except.ok.inj h2).symm
    have he1 : groupEntries k2 grouped3 = es2 := groupEntries_eq grouped3 k2 es2 hnd hp2
    have he2 : groupEntries k2 grouped3 = p.2 := by
      rw [hk]
      exact groupEntries_eq grouped3 p.1 p.2 hnd ((Prod.ext rfl rfl : (p.1, p.2) = p) ▸ hp)
    exact ⟨hk, he1.symm.trans he2⟩
  · have hsec : ∀ k ∈ keys, ∀ e ∈ groupEntries k grouped3, entryOk e = true := by
      intro k hk e he
      obtain ⟨p, hp, hpk⟩ := List.mem_map.mp (hperm.subset hk)
      have hge : groupEntries k grouped3 = p.2 :=
        groupEntries_eq grouped3 k p.2 hnd
          ((Prod.ext hpk.symm rfl : (k, p.2) = p) ▸ hp)
      rw [hge] at he
      exact hent p hp e he
    have hlen : ∀ k ∈ keys,
        (sectionRows grouped3 k).length = (groupEntries k grouped3).length :=
      fun k hk => sectionRows_length (hsec k hk)
    calc (keys.map fun k => (sectionRows grouped3 k).length).sum
        = (keys.map fun k => (groupEntries k grouped3).length).sum := by
          rw [List.map_congr_left hlen]
      _ = ((grouped3.map Prod.fst).map fun k => (groupEntries k grouped3).length).sum :=
          List.Perm.sum_eq (hperm.map _)
      _ = (grouped3.map fun p => p.2.length).sum := by
          rw [List.map_map]
          refine congrArg List.sum (List.map_congr_left ?_)
          intro p hp
          simp only [Function.comp_apply]
          rw [groupEntries_eq grouped3 p.1 p.2 hnd ((Prod.ext rfl rfl : (p.1, p.2) = p) ▸ hp)]
      _ = (grouped3.flatMap Prod.snd).length := by
          rw [List.length_flatMap]
          exact congrArg List.sum (List.map_congr_left (fun p _ => rfl)).symm
      _ = results.length := hjoin.length_eq

theorem grouping_partitions_one_row_per_entry_witness :
    ([entryA, entryB, entryC] ≠ [] ∧
      ∀ e ∈ [entryA, entryB, entryC], entryOk e = true) ∧
    (∃ grouped keys,
      groupResults [entryA, entryB, entryC] = .ok grouped ∧
      (grouped.flatMap Prod.snd).Perm [entryA, entryB, entryC] ∧
      (grouped.map Prod.fst).Nodup ∧
      (∀ e ∈ [entryA, entryB, entryC], ∃ k es, (k, es) ∈ grouped ∧ e ∈ es ∧
        ∀ k2 es2, (k2, es2) ∈ grouped → e ∈ es2 → k2 = k ∧ es2 = es) ∧
      sortKeys (grouped.map Prod.fst) = .ok keys ∧
      (keys.map fun k => (sectionRows grouped k).length).sum =
        [entryA, entryB, entryC].length ∧
      (generate_markdown [entryA, entryB, entryC]).file =
        some (reportTitle :: keys.flatMap (sectionChunks grouped))) :=
  ⟨⟨by simp, by decide⟩,
   grouping_partitions_one_row_per_entry [entryA, entryB, entryC] (by simp) (by decide)⟩

/-- C3 (counterexample): with a backend whose result file parses to an array
holding an entry that lacks `primaryMetric`, the script raises a `KeyError`
while sorting — it does not degrade to a console warning. -/
theorem script_raises_on_missing_key :
    (runScript none envMissingMetric).err = some PyErr.keyError := rfl

/-- C3 (amended): for well-behaved environments — whenever a backend's
command succeeds and its result file exists, that file parses to a JSON
array of well-formed entries — the script raises no exception; the handled
failure paths (non-zero exit, missing file, empty results) degrade to
console messages. -/
theorem script_no_exception_when_wellformed (initDir : Option (List String))
    (env : Env) (h : envOkB env = true) : (runScript initDir env).err = none :=
  runScript_err_none h

theorem script_no_exception_when_wellformed_witness :
    envOkB envGood = true ∧ (runScript none envGood).err = none :=
  ⟨by decide, script_no_exception_when_wellformed none envGood (by decide)⟩

/-- C8: the results directory is recreated from scratch — the run's outcome
is independent of the directory's initial contents — and when no exception
interrupts collection the directory holds exactly one copied JSON file per
backend whose command succeeded and whose result file existed, with no
duplicates. -/
theorem results_dir_recreated (initDir initDir2 : Option (List String)) (env : Env) :
    collect_results initDir env = collect_results initDir2 env ∧
    ((collect_results initDir env).err = none →
      (collect_results initDir env).dirFiles =
        (backends.filter fun p =>
          (env p.1).returncode = 0 && (env p.1).fileExists).map
            (fun p => resultFileName p.1) ∧
      (collect_results initDir env).dirFiles.Nodup) := by
  constructor
  · cases initDir <;> cases initDir2 <;> rfl
  · intro herr
    have herr2 : (collectAux env backends).err = none := by
      simpa [collect_results] using herr
    have hd := collectAux_dirFiles env backends herr2
    have hdir : (collect_results initDir env).dirFiles =
        (collectAux env backends).dirFiles := by
      cases initDir <;> simp [collect_results, recreateDir]
    constructor
    · rw [hdir, hd]
    · rw [hdir, hd]
      refine List.Nodup.sublist (List.Sublist.map _ (List.filter_sublist backends)) ?_
      decide

theorem results_dir_recreated_witness :
    (collect_results (some ["stale.json"]) envGood).err = none ∧
    ((collect_results (some ["stale.json"]) envGood).dirFiles =
      (backends.filter fun p =>
        (envGood p.1).returncode = 0 && (envGood p.1).fileExists).map
          (fun p => resultFileName p.1) ∧
      (collect_results (some ["stale.json"]) envGood).dirFiles.Nodup) :=
  ⟨rfl, (results_dir_recreated (some ["stale.json"]) none envGood).2 rfl⟩

end Sawmill
